import Mathlib

/-!
Verification of the envoy-exporter metric extraction and calculation engine.

The Go source is shallowly embedded: Go strings are lists of characters,
decoded JSON values (`interface{}` after `json.Unmarshal`) are a `Json`
variant, Go `float64` values are modelled as rationals (all values the
engine manipulates are exact decimals), and `math.NaN()` is modelled as
`none` in `Option ℚ` (Go's NaN propagates through arithmetic exactly as
`none` propagates below).  Go maps used as association tables (the metric
cache, the label set) are modelled as association lists with
replace-or-append insertion; Go map iteration order is unspecified, the
list order stands in for it.
-/

namespace Envoy

/-- Go strings, modelled as lists of characters. -/
abbrev GoStr := List Char

/-- `strings.Split` with a one-character separator (the only separators the
engine uses: `"."`, `"+"`, `"-"`, `"*"`, `"/"`, `","`, `" "`).  Always
returns at least one part. -/
def goSplit (c : Char) : GoStr → List GoStr
  | [] => [[]]
  | x :: xs =>
    match goSplit c xs with
    | [] => if x = c then [[], []] else [[x]]
    | h :: t => if x = c then [] :: h :: t else (x :: h) :: t

/-- Characters `strings.TrimSpace` removes (the configuration strings only
ever contain ASCII whitespace). -/
def isGoSpace (c : Char) : Bool :=
  c = ' ' ∨ c = '\t' ∨ c = '\n' ∨ c = '\r'

/-- `strings.TrimSpace`. -/
def goTrimSpace (s : GoStr) : GoStr :=
  (s.dropWhile isGoSpace).reverse.dropWhile isGoSpace |>.reverse

/-- `strings.Trim` with an explicit cutset. -/
def goTrimSet (cutset : List Char) (s : GoStr) : GoStr :=
  (s.dropWhile (cutset.contains ·)).reverse.dropWhile (cutset.contains ·) |>.reverse

/-- `strings.HasPrefix`. -/
def goHasPrefix (pre s : GoStr) : Bool :=
  pre.isPrefixOf s

/-- `strings.TrimPrefix`. -/
def goTrimPrefix (pre s : GoStr) : GoStr :=
  if goHasPrefix pre s then s.drop pre.length else s

/-- First index at which `pat` occurs in `s` (`strings.Index`), `none` when
`strings.Contains` is false. -/
def goIndexSub (pat : GoStr) : GoStr → Option Nat
  | [] => if pat = [] then some 0 else none
  | x :: xs =>
    if goHasPrefix pat (x :: xs) then some 0
    else (goIndexSub pat xs).map (· + 1)

/-- `strings.Contains`. -/
def goContainsSub (s pat : GoStr) : Bool :=
  (goIndexSub pat s).isSome

/-- `strings.Join`. -/
def goJoin (sep : GoStr) : List GoStr → GoStr
  | [] => []
  | [x] => x
  | x :: y :: t => x ++ sep ++ goJoin sep (y :: t)

/-- One left-to-right replacement scan: wherever `old` matches, emit `new`
and skip past the match (non-overlapping).  `skip` counts characters of a
previous match still to be consumed without emitting. -/
def goReplaceScanAux (old new : GoStr) : Nat → GoStr → GoStr
  | _, [] => []
  | skip + 1, _ :: xs => goReplaceScanAux old new skip xs
  | 0, x :: xs =>
    if goHasPrefix old (x :: xs) then new ++ goReplaceScanAux old new (old.length - 1) xs
    else x :: goReplaceScanAux old new 0 xs

def goReplaceScan (old new : GoStr) (s : GoStr) : GoStr :=
  goReplaceScanAux old new 0 s

/-- `strings.ReplaceAll` (non-overlapping, left to right).  Go's behaviour
for an empty pattern (inserting between every rune) never arises here:
the engine only substitutes configured metric names; an empty pattern
leaves the string unchanged. -/
def goReplaceAll (s old new : GoStr) : GoStr :=
  if old = [] then s else goReplaceScan old new s

/-- A decoded JSON document, i.e. the shapes `encoding/json.Unmarshal` puts
into an `interface{}`: `nil`, `bool`, `float64` (modelled as `ℚ`: every
value the engine handles is an exact decimal), `string`,
`[]interface{}` and `map[string]interface{}`.  A JSON `null` decodes to
the Go `nil` interface, so `Json.null` is also the model of Go's `nil`. -/
inductive Json where
  | null
  | bool (b : Bool)
  | num (q : ℚ)
  | str (s : GoStr)
  | arr (elems : List Json)
  | obj (fields : List (GoStr × Json))

/-- A Go map read `m[k]`: the first binding for `k`, or the zero value
(`nil`, i.e. `Json.null`) when the key is absent — exactly how a missing
key and a stored JSON `null` become indistinguishable in the source. -/
def jsonIndex (kvs : List (GoStr × Json)) (k : GoStr) : Json :=
  match kvs with
  | [] => Json.null
  | (k', v) :: rest => if k' = k then v else jsonIndex rest k

/-- Go `interface{}` values flowing through the metric renderer: the JSON
shapes plus Go `int`, which the transform registry produces. -/
inductive Dyn where
  | null
  | bool (b : Bool)
  | int (n : ℤ)
  | float (q : ℚ)
  | str (s : GoStr)
  | arr (elems : List Json)
  | obj (fields : List (GoStr × Json))

/-- Injection of a decoded JSON value into the renderer's value space. -/
def Dyn.ofJson : Json → Dyn
  | .null => .null
  | .bool b => .bool b
  | .num q => .float q
  | .str s => .str s
  | .arr xs => .arr xs
  | .obj kvs => .obj kvs

/-- Configuration structures, from the `Config` declaration block of the
source (`type Field struct`). -/
structure Field where
  JSONPath : GoStr
  Label : GoStr
  LabelValue : GoStr
  Transform : GoStr
deriving DecidableEq

/-- `type Metric struct` (the unused `Labels`/`Transform` attributes of the
XML schema are omitted: `processMetric` never reads them). -/
structure Metric where
  Name : GoStr
  Type' : GoStr
  Help : GoStr
  Condition : GoStr
  Fields : List Field
  Value : GoStr
deriving DecidableEq

/-- `type Condition struct` (the `Description` field is documentation only
and never read by the engine). -/
structure Condition where
  Name : GoStr
  Check : GoStr
deriving DecidableEq

/-- `type Query struct`. -/
structure Query where
  Name : GoStr
  URL : GoStr
  Array : Bool
  Condition : GoStr
  Metrics : List Metric
deriving DecidableEq

/-- `type CalculatedMetric struct`. -/
structure CalculatedMetric where
  Name : GoStr
  Type' : GoStr
  Help : GoStr
  Condition : GoStr
  Calculation : GoStr
deriving DecidableEq

/-- The metric cache `map[string]float64`, as an association list;
`cacheInsert` is a map write (replace the existing binding or append). -/
abbrev Cache := List (GoStr × ℚ)

def cacheInsert (cache : Cache) (k : GoStr) (v : ℚ) : Cache :=
  match cache with
  | [] => [(k, v)]
  | (k', v') :: rest =>
    if k' = k then (k', v) :: rest else (k', v') :: cacheInsert rest k v

/-- A Go map read `cache[k]` with `float64` zero value. -/
def cacheGet (cache : Cache) (k : GoStr) : ℚ :=
  match cache with
  | [] => 0
  | (k', v) :: rest => if k' = k then v else cacheGet rest k

/-- Key presence, for the `_, exists := cache[k]` form. -/
def cacheHas (cache : Cache) (k : GoStr) : Bool :=
  match cache with
  | [] => false
  | (k', _) :: rest => k' = k ∨ cacheHas rest k

/-- The loop body of `getJSONPathValue`: walk the already-split path
segments.  At each segment: a `nil` current value stops with `nil`; a map
indexes (missing key yields `nil`); an array returns `nil` (array access
unsupported); any other value hits the source's reflection fallback,
which for non-struct values (all JSON-decoded values) returns `nil`. -/
def getJSONPathValueAux : Json → List GoStr → Json
  | current, [] => current
  | current, part :: rest =>
    match current with
    | .null => .null
    | .obj kvs => getJSONPathValueAux (jsonIndex kvs part) rest
    | _ => .null

/-- `getJSONPathValue`: split the dotted path and walk it. -/
def getJSONPathValue (data : Json) (path : GoStr) : Json :=
  match data with
  | .null => .null
  | _ => getJSONPathValueAux data (goSplit '.' path)

/-- `jsonPathExists`: the resolved value is non-`nil`. -/
def jsonPathExists (data : Json) (path : GoStr) : Bool :=
  match getJSONPathValue data path with
  | .null => false
  | _ => true

/-- `arrayHasType`. -/
def arrayHasType (data : Json) (typeVal : GoStr) : Bool :=
  match data with
  | .arr items =>
    items.any fun item =>
      match item with
      | .obj kvs =>
        match jsonIndex kvs ("type".data) with
        | .str t => t = typeVal
        | _ => false
      | _ => false
  | _ => false

/-- `transformValue`: the fixed transform registry.  The `switch` on the
transform name is embedded as an `if` chain; each case mirrors the
source's type assertions, including the fallthrough `return value` at the
bottom for cases that do not return. -/
def transformValue (value : Dyn) (transform : GoStr) : Dyn :=
  if transform = ("bool_to_int".data) then
    match value with
    | .bool true => .int 1
    | .bool false => .int 0
    | _ => value
  else if transform = ("mw_to_watts".data) then
    match value with
    | .float f => .float (f / 1000)
    | .int i => .float ((i : ℚ) / 1000)
    | _ => value
  else if transform = ("connected_to_int".data) then
    match value with
    | .str s => if s = ("connected".data) then .int 1 else .int 0
    | _ => .int 0
  else if transform = ("ok_to_int".data) then
    match value with
    | .str s => if s = ("ok".data) then .int 1 else .int 0
    | _ => .int 0
  else if transform = ("enabled_to_int".data) then
    match value with
    | .str s => if s = ("enabled".data) then .int 1 else .int 0
    | _ => .int 0
  else if transform = ("battery_state_to_int".data) then
    match value with
    | .str s =>
      if s = ("charging".data) then .int 1
      else if s = ("discharging".data) then .int (-1)
      else .int 0
    | _ => .int 0
  else value

/-- The condition-table scan inside `checkCondition`: the check string of
the first condition whose name matches. -/
def lookupConditionCheck (conds : List Condition) (name : GoStr) : Option GoStr :=
  match conds with
  | [] => none
  | c :: rest => if c.Name = name then some c.Check else lookupConditionCheck rest name

/-- `evaluateConditionCheck`: dispatch on the check mini-language, in the
source's case order; anything unrecognised is true. -/
def evaluateConditionCheck (check : GoStr) (data : Json) : Bool :=
  if check = ("endpoint_accessible".data) then
    match data with
    | .null => false
    | _ => true
  else if goHasPrefix ("json_path_exists".data) check then
    jsonPathExists data
      (goTrimSet ['(', ')', '"'] (goTrimPrefix ("json_path_exists(".data) check))
  else if goHasPrefix ("json_path_value".data) check then
    match goSplit ' ' check with
    | p0 :: _ :: _ :: _ =>
      match getJSONPathValue data
          (goTrimSet ['(', ')', '"'] (goTrimPrefix ("json_path_value(".data) p0)) with
      | .num q => decide (q ≠ 0)
      | _ => false
    | _ => false
  else if goContainsSub check ("array_has_type".data) then
    arrayHasType data
      (goTrimSet ['(', ')', '"'] (goTrimPrefix ("array_has_type(".data) check))
  else true

/-- `checkCondition`: empty condition and unknown condition names are
true (fail-open); otherwise evaluate the first matching check. -/
def checkCondition (conds : List Condition) (condition : GoStr) (data : Json) : Bool :=
  if condition = [] then true
  else
    match lookupConditionCheck conds condition with
    | some check => evaluateConditionCheck check data
    | none => true

/-- Decimal digits of a natural number. -/
def natDigits (n : Nat) : GoStr :=
  Nat.toDigits 10 n

/-- `%d` of an integer. -/
def intDigits (z : ℤ) : GoStr :=
  if z < 0 then '-' :: natDigits z.natAbs else natDigits z.natAbs

/-- `fmt.Sprintf("%.2f", x)` on a non-NaN value: scale by 100 and round
half to even (the rounding Go's formatter applies to the exact binary
value), then print with two forced decimals. -/
def formatF2 (q : ℚ) : GoStr :=
  let x := q * 100
  let fl : ℤ := ⌊x⌋
  let frac := x - fl
  let n : ℤ :=
    if frac < 1/2 then fl
    else if 1/2 < frac then fl + 1
    else if fl % 2 = 0 then fl else fl + 1
  let m := n.natAbs
  let sign : GoStr := if n < 0 then ['-'] else []
  let fracDigits := natDigits (m % 100)
  sign ++ natDigits (m / 100) ++ '.' :: (if m % 100 < 10 then '0' :: fracDigits else fracDigits)

/-- `%.2f` where `none` stands for NaN, which Go prints as `NaN`. -/
def formatF2Opt : Option ℚ → GoStr
  | none => "NaN".data
  | some q => formatF2 q

/-- `fmt.Sprintf("%v", x)` on a `float64`: the shortest decimal form.
Every `float64` is a dyadic rational, so a finite decimal expansion of at
most 1100 fractional digits always exists; values outside `%v`'s
fixed-notation range (`|x| < 1e-4` or `≥ 1e21`, printed by Go in
e-notation) do not arise from the device's JSON. -/
def fmtFloatV (q : ℚ) : GoStr :=
  let sign : GoStr := if q < 0 then ['-'] else []
  let a := |q|
  match (List.range 1101).find? (fun k => (a * 10 ^ k).den = 1) with
  | some k =>
    let n := (a * 10 ^ k).num.natAbs
    if k = 0 then sign ++ natDigits n
    else
      let digits := natDigits n
      let digits := if digits.length < k + 1 then
        List.replicate (k + 1 - digits.length) '0' ++ digits else digits
      sign ++ digits.take (digits.length - k) ++ '.' :: digits.drop (digits.length - k)
  | none => sign ++ natDigits ⌊a⌋.natAbs

mutual

/-- `fmt.Sprintf("%v", x)` over decoded JSON values.  `fmt` prints Go map
entries in sorted key order; the association list here is already the
determinization of the unordered Go map, so entries are printed in list
order. -/
def fmtJson : Json → GoStr
  | .null => "<nil>".data
  | .bool true => "true".data
  | .bool false => "false".data
  | .num q => fmtFloatV q
  | .str s => s
  | .arr xs => '[' :: (fmtJsonList xs ++ [']'])
  | .obj kvs => ("map[".data) ++ (fmtJsonObj kvs ++ [']'])

def fmtJsonList : List Json → GoStr
  | [] => []
  | [x] => fmtJson x
  | x :: y :: t => fmtJson x ++ ' ' :: fmtJsonList (y :: t)

def fmtJsonObj : List (GoStr × Json) → GoStr
  | [] => []
  | [(k, v)] => k ++ ':' :: fmtJson v
  | (k, v) :: y :: t => k ++ ':' :: fmtJson v ++ ' ' :: fmtJsonObj (y :: t)

end

/-- `fmt.Sprintf("%v", x)` over renderer values. -/
def fmtV : Dyn → GoStr
  | .null => "<nil>".data
  | .bool true => "true".data
  | .bool false => "false".data
  | .int n => intDigits n
  | .float q => fmtFloatV q
  | .str s => s
  | .arr xs => fmtJson (.arr xs)
  | .obj kvs => fmtJson (.obj kvs)

/-- Digits to a natural number. -/
def digitsToNat (ds : GoStr) : Nat :=
  ds.foldl (fun a c => a * 10 + (c.toNat - '0'.toNat)) 0

/-- The unsigned part of `strconv.ParseFloat`: digits with at most one
point, at least one digit. -/
def parseFloatDigits (ds : GoStr) : Option ℚ :=
  match goSplit '.' ds with
  | [ip] =>
    if ip ≠ [] ∧ ip.all Char.isDigit then some (digitsToNat ip) else none
  | [ip, fp] =>
    if (ip ≠ [] ∨ fp ≠ []) ∧ ip.all Char.isDigit ∧ fp.all Char.isDigit then
      some ((digitsToNat ip : ℚ) + (digitsToNat fp : ℚ) / 10 ^ fp.length)
    else none
  | _ => none

/-- `strconv.ParseFloat(s, 64)`, `none` for a parse error, restricted to
plain decimal literals (optional sign, digits, at most one point) — the
only numeric strings the engine produces or configures; Go's additional
forms (exponents, hex floats, `Inf`, `NaN`) do not arise. -/
def parseFloat (s : GoStr) : Option ℚ :=
  match s with
  | [] => none
  | c :: rest =>
    (parseFloatDigits (if c = '-' ∨ c = '+' then rest else s)).map
      (fun q => if c = '-' then -q else q)

/-- The `labels` map of `processMetric` (`map[string]string`), as an
association list with map-write semantics. -/
abbrev Labels := List (GoStr × GoStr)

def labelsSet (labels : Labels) (k v : GoStr) : Labels :=
  match labels with
  | [] => [(k, v)]
  | (k', v') :: rest =>
    if k' = k then (k', v) :: rest else (k', v') :: labelsSet rest k v

/-- First field pass of `processMetric`: label fields populate the label
map (a fixed `label_value` wins over extraction; an absent extraction
contributes nothing), value fields overwrite the metric value (last value
field wins), applying the named transform when one is configured. -/
def processFieldsStep (data : Json) (st : Labels × Dyn) (field : Field) : Labels × Dyn :=
  if field.Label ≠ [] then
    let labelValue := getJSONPathValue data field.JSONPath
    if field.LabelValue ≠ [] then (labelsSet st.1 field.Label field.LabelValue, st.2)
    else
      match labelValue with
      | .null => st
      | lv => (labelsSet st.1 field.Label (fmtV (Dyn.ofJson lv)), st.2)
  else
    let mv := Dyn.ofJson (getJSONPathValue data field.JSONPath)
    (st.1, if field.Transform ≠ [] then transformValue mv field.Transform else mv)

/-- Second field pass of `processMetric`: the multi-path
`signal_strength_percentage` transform, overriding the metric value with
`(strength / max) * 100` when both paths resolve to numbers and the
maximum is positive. -/
def signalStep (data : Json) (mv : Dyn) (field : Field) : Dyn :=
  if field.Transform = ("signal_strength_percentage".data) ∧
      goContainsSub field.JSONPath (",".data) then
    match goSplit ',' field.JSONPath with
    | [p0, p1] =>
      match getJSONPathValue data p0, getJSONPathValue data p1 with
      | .num s, .num m => if 0 < m then .float (s / m * 100) else mv
      | _, _ => mv
    | _ => mv
  else mv

/-- Label formatting: `\x7bk="v",...\x7d`, keys in the (determinized) map
order. -/
def formatLabels (labels : Labels) : GoStr :=
  if labels = [] then []
  else
    '\x7b' ::
      (goJoin (",".data) (labels.map fun kv => kv.1 ++ '=' :: '"' :: kv.2 ++ ['"']) ++ ['\x7d'])

/-- The cache write at the end of `processMetric`: `float64` and `int`
values are stored directly, strings are stored when they parse as a
float, everything else is not cached. -/
def cacheStore (cache : Cache) (name : GoStr) (mv : Dyn) : Cache :=
  match mv with
  | .float f => cacheInsert cache name f
  | .int i => cacheInsert cache name (i : ℚ)
  | .str s =>
    match parseFloat s with
    | some f => cacheInsert cache name f
    | none => cache
  | _ => cache

/-- The `# HELP` and `# TYPE` preamble of one metric. -/
def helpTypeLines (metric : Metric) : GoStr :=
  ("# HELP ".data) ++ metric.Name ++ ' ' :: metric.Help ++ '\n' ::
    ("# TYPE ".data) ++ metric.Name ++ ' ' :: metric.Type' ++ ['\n']

/-- The two field passes of `processMetric`: the `labels` map and the
`metricValue` local after the first loop. -/
def fieldsPass (metric : Metric) (data : Json) : Labels × Dyn :=
  metric.Fields.foldl (processFieldsStep data) ([], Dyn.null)

/-- `metricValue` after the second (signal-percentage) pass and the
static-`value` fallback for field metrics. -/
def metricFinalValue (metric : Metric) (data : Json) : Dyn :=
  match metric.Fields.foldl (signalStep data) (fieldsPass metric data).2 with
  | .null => if metric.Value ≠ [] then Dyn.str metric.Value else Dyn.null
  | v => v

/-- `processMetric` (the `metrics.go` version): returns the text appended
to the output builder and the updated metric cache. -/
def processMetric (conds : List Condition) (metric : Metric) (data : Json)
    (cache : Cache) : GoStr × Cache :=
  if checkCondition conds metric.Condition data = false then ([], cache)
  else if metric.Fields = [] then
    (helpTypeLines metric ++ metric.Name ++
      ' ' :: (if metric.Value = [] then ("1".data) else metric.Value) ++ ['\n'], cache)
  else
    match metricFinalValue metric data with
    | .null => (helpTypeLines metric, cache)
    | v =>
      (helpTypeLines metric ++ metric.Name ++ formatLabels (fieldsPass metric data).1 ++
        ' ' :: fmtV v ++ ['\n'],
        cacheStore cache metric.Name v)

/-- `processArrayMetrics`: render the metric once per array element,
appending each element's output and threading the cache. -/
def processArrayMetrics (conds : List Condition) (metric : Metric)
    (dataArray : List Json) (cache : Cache) : GoStr × Cache :=
  dataArray.foldl
    (fun acc item =>
      let r := processMetric conds metric item acc.2
      (acc.1 ++ r.1, r.2))
    ([], cache)

/-- `checkCalculatedCondition`: the fixed calculated-condition vocabulary
over the metric cache; empty and unknown names are true. -/
def checkCalculatedCondition (cache : Cache) (condition : GoStr) : Bool :=
  if condition = [] then true
  else if condition = ("pv_producing".data) then
    decide (0 < cacheGet cache ("envoy_pv_power_watts".data))
  else if condition = ("load_present".data) then
    decide (0 < cacheGet cache ("envoy_load_power_watts".data))
  else if condition = ("storage_present".data) then
    cacheHas cache ("envoy_storage_power_watts".data)
  else true

/-- `strings.Split` producing exactly two parts — the only case in which
`evaluateExpression` performs a binary split. -/
def splitTwo? (c : Char) (s : GoStr) : Option (GoStr × GoStr) :=
  match goSplit c s with
  | [a, b] => some (a, b)
  | _ => none

/-- Binary `float64` arithmetic with NaN (`none`) propagation. -/
def optBin (f : ℚ → ℚ → ℚ) : Option ℚ → Option ℚ → Option ℚ
  | some a, some b => some (f a b)
  | _, _ => none

/-- `evaluateExpression`, with explicit fuel (the source recurses on
strictly shorter strings, so `length + 1` fuel never runs out; see
`evalExpr_adequate`).  Splits once per operator in the checked order
`+`, `-` (unless the expression starts with `-`), `*`, `/`; a split
happens only when the operator occurs exactly once.  Division falls
through to the final number parse when the right side evaluates to
exactly zero, so `a/0` becomes NaN (`none`). -/
def evalExpr : Nat → GoStr → Option ℚ
  | 0, _ => none
  | fuel + 1, s =>
    let expr := goTrimSpace s
    match splitTwo? '+' expr with
    | some (a, b) =>
      optBin (· + ·) (evalExpr fuel (goTrimSpace a)) (evalExpr fuel (goTrimSpace b))
    | none =>
      match (if goHasPrefix (['-']) expr then none else splitTwo? '-' expr) with
      | some (a, b) =>
        optBin (· - ·) (evalExpr fuel (goTrimSpace a)) (evalExpr fuel (goTrimSpace b))
      | none =>
        match splitTwo? '*' expr with
        | some (a, b) =>
          optBin (· * ·) (evalExpr fuel (goTrimSpace a)) (evalExpr fuel (goTrimSpace b))
        | none =>
          match splitTwo? '/' expr with
          | some (a, b) =>
            let right := evalExpr fuel (goTrimSpace b)
            if right = some 0 then parseFloat expr
            else optBin (· / ·) (evalExpr fuel (goTrimSpace a)) right
          | none => parseFloat expr

/-- `evaluateExpression` proper. -/
def evaluateExpression (s : GoStr) : Option ℚ :=
  evalExpr (s.length + 1) s

/-- The matching-parenthesis scan of `replaceFunctions`: from index `i`
(depth 0), the index of the closing parenthesis, or `none` when the scan
runs off the end (in which case the source keeps `end = start + n`). -/
def findCloseParen : GoStr → Nat → Nat → Option Nat
  | [], _, _ => none
  | c :: rest, i, depth =>
    if c = '(' then findCloseParen rest (i + 1) (depth + 1)
    else if c = ')' then
      if depth = 0 then some i else findCloseParen rest (i + 1) (depth - 1)
    else findCloseParen rest (i + 1) depth

/-- Go slice `s[a:b]`. -/
def sliceStr (s : GoStr) (a b : Nat) : GoStr :=
  (s.drop a).take (b - a)

/-- The `max(0, X)` rewrite loop of `replaceFunctions`.  Each iteration
removes one `max(0,` occurrence and splices in a decimal (or `NaN`),
which cannot create a new occurrence, so `length + 1` fuel suffices. -/
def maxLoop : Nat → GoStr → GoStr
  | 0, expr => expr
  | fuel + 1, expr =>
    match goIndexSub ("max(0,".data) expr with
    | none => expr
    | some start =>
      let scanFrom := start + 6
      let close := (findCloseParen (expr.drop scanFrom) scanFrom 0).getD scanFrom
      let valuePart := goTrimSpace (sliceStr expr scanFrom close)
      let result := (evaluateExpression valuePart).map (fun v => max 0 v)
      maxLoop fuel (expr.take start ++ formatF2Opt result ++ expr.drop (close + 1))

/-- The `clamp(lo, hi, X)` rewrite loop.  When the argument list does not
split into three parts the source rewrites nothing and its `for` loop
never terminates; the model stops instead (that configuration never
occurs). -/
def clampLoop : Nat → GoStr → GoStr
  | 0, expr => expr
  | fuel + 1, expr =>
    match goIndexSub ("clamp(".data) expr with
    | none => expr
    | some start =>
      let scanFrom := start + 6
      let close := (findCloseParen (expr.drop scanFrom) scanFrom 0).getD scanFrom
      match goSplit ',' (sliceStr expr scanFrom close) with
      | [a0, a1, a2] =>
        let lo := evaluateExpression (goTrimSpace a0)
        let hi := evaluateExpression (goTrimSpace a1)
        let v := evaluateExpression (goTrimSpace a2)
        let result :=
          match lo, hi, v with
          | some l, some h, some x => some (max l (min h x))
          | _, _, _ => none
        clampLoop fuel (expr.take start ++ formatF2Opt result ++ expr.drop (close + 1))
      | _ => expr

/-- The `coalesce(A, B)` rewrite loop: `A` unless it is NaN or exactly
zero, else `B`.  Same two-part-argument caveat as `clampLoop`. -/
def coalesceLoop : Nat → GoStr → GoStr
  | 0, expr => expr
  | fuel + 1, expr =>
    match goIndexSub ("coalesce(".data) expr with
    | none => expr
    | some start =>
      let scanFrom := start + 9
      let close := (findCloseParen (expr.drop scanFrom) scanFrom 0).getD scanFrom
      match goSplit ',' (sliceStr expr scanFrom close) with
      | [a0, a1] =>
        let value := evaluateExpression (goTrimSpace a0)
        let dflt := evaluateExpression (goTrimSpace a1)
        let result :=
          match value with
          | none => dflt
          | some v => if v = 0 then dflt else some v
        coalesceLoop fuel (expr.take start ++ formatF2Opt result ++ expr.drop (close + 1))
      | _ => expr

/-- `replaceFunctions`: the three rewrite loops in source order. -/
def replaceFunctions (expr : GoStr) : GoStr :=
  let e1 := maxLoop (expr.length + 1) expr
  let e2 := clampLoop (e1.length + 1) e1
  coalesceLoop (e2.length + 1) e2

/-- The metric-name substitution loop of `evaluateCalculation`: replace
every cached metric name by its value formatted to two decimals (cache
iteration order modelled as list order). -/
def substituteCache (cache : Cache) (s : GoStr) : GoStr :=
  cache.foldl (fun e kv => goReplaceAll e kv.1 (formatF2 kv.2)) s

/-- `evaluateCalculation`: substitute, expand the function calls, then
evaluate. -/
def evaluateCalculation (cache : Cache) (calcStr : GoStr) : Option ℚ :=
  evaluateExpression (replaceFunctions (substituteCache cache calcStr))

/-- One iteration of the `processCalculatedMetrics` loop: nothing when the
condition gate fails or the calculation is NaN, otherwise the
HELP/TYPE/sample triplet with the value at two decimals. -/
def processCalculatedMetric1 (cache : Cache) (cm : CalculatedMetric) : GoStr :=
  if checkCalculatedCondition cache cm.Condition = false then []
  else
    match evaluateCalculation cache cm.Calculation with
    | none => []
    | some value =>
      ("# HELP ".data) ++ cm.Name ++ ' ' :: cm.Help ++ '\n' ::
        ("# TYPE ".data) ++ cm.Name ++ ' ' :: cm.Type' ++ '\n' ::
        cm.Name ++ ' ' :: formatF2 value ++ ['\n']

/-- `processCalculatedMetrics`: sequential emission over the configured
calculated metrics. -/
def processCalculatedMetrics (cache : Cache) : List CalculatedMetric → GoStr
  | [] => []
  | c :: rest => processCalculatedMetric1 cache c ++ processCalculatedMetrics cache rest

/-- One iteration of the query loop in `serveMetrics`.  `fetched` is the
query's fetched-and-parsed document; `none` covers both a failed
`makeEnvoyRequest` and a JSON parse error (logged, query skipped).  A
false query condition also skips (logged).  An array-typed query whose
document is not a JSON array silently does nothing (the type assertion
fails and there is no `else`). -/
def processQuery (conds : List Condition) (query : Query) (fetched : Option Json)
    (acc : GoStr × Cache) : GoStr × Cache :=
  match fetched with
  | none => acc
  | some jsonData =>
    if checkCondition conds query.Condition jsonData = false then acc
    else
      query.Metrics.foldl
        (fun acc2 metric =>
          if query.Array then
            match jsonData with
            | .arr arr =>
              let r := processArrayMetrics conds metric arr acc2.2
              (acc2.1 ++ r.1, r.2)
            | _ => acc2
          else
            let r := processMetric conds metric jsonData acc2.2
            (acc2.1 ++ r.1, r.2))
        acc

/-- The fixed exporter-health lines appended at the end of every scrape. -/
def exporterTail (tokenExpires scrapeTime : ℤ) : GoStr :=
  ("# HELP envoy_exporter_up Exporter up status\n".data) ++
    ("# TYPE envoy_exporter_up gauge\n".data) ++
    ("envoy_exporter_up 1\n".data) ++
    ("# HELP envoy_token_expires_timestamp Token expiry timestamp\n".data) ++
    ("# TYPE envoy_token_expires_timestamp gauge\n".data) ++
    ("envoy_token_expires_timestamp ".data) ++ intDigits tokenExpires ++ '\n' ::
    ("# HELP envoy_scrape_timestamp Timestamp of this scrape\n".data) ++
    ("# TYPE envoy_scrape_timestamp gauge\n".data) ++
    ("envoy_scrape_timestamp ".data) ++ intDigits scrapeTime ++ ['\n']

/-- The query loop of `serveMetrics`. -/
def serveQueriesLoop (conds : List Condition) :
    GoStr × Cache → List (Query × Option Json) → GoStr × Cache
  | acc, [] => acc
  | acc, (q, d) :: rest => serveQueriesLoop conds (processQuery conds q d acc) rest

/-- The pure core of `serveMetrics`: `oldCache` is whatever the metric
cache held before this scrape; the handler replaces it with a fresh empty
map before processing any query, renders every query in order, then runs
the calculated metrics over the populated cache and appends the fixed
tail.  Returns the response body and the cache left for the next scrape. -/
def serveMetricsCore (conds : List Condition) (_oldCache : Cache)
    (queries : List (Query × Option Json)) (calcs : List CalculatedMetric)
    (tokenExpires scrapeTime : ℤ) : GoStr × Cache :=
  let acc := serveQueriesLoop conds ([], ([] : Cache)) queries
  (acc.1 ++ processCalculatedMetrics acc.2 calcs ++ exporterTail tokenExpires scrapeTime,
    acc.2)

/-! ### Spec-side definitions (for the refinement claims) -/

/-- Spec-side lookup in a JSON mapping: `none` when the key is missing,
`some v` (possibly `some Json.null`) when present. -/
def specLookup : List (GoStr × Json) → GoStr → Option Json
  | [], _ => none
  | (k', v) :: rest, k => if k' = k then some v else specLookup rest k

/-- The Path Extractor contract in the spec's words: each segment indexes
into a mapping; a missing segment or a segment applied to a non-mapping
value makes the whole resolution absent (`none`); an exhausted path
returns the value reached. -/
def specPathResolve : Json → List GoStr → Option Json
  | v, [] => some v
  | .obj kvs, seg :: rest =>
    match specLookup kvs seg with
    | some v => specPathResolve v rest
    | none => none
  | _, _ :: _ => none

/-- Collapse a spec-side result into the Go value space, where absence is
the `nil` interface. -/
def orNull : Option Json → Json
  | some v => v
  | none => .null

/-- The transform names the `transformValue` switch matches on. -/
def knownTransformNames : List GoStr :=
  [("bool_to_int".data), ("mw_to_watts".data), ("connected_to_int".data),
    ("ok_to_int".data), ("enabled_to_int".data), ("battery_state_to_int".data)]

/-- The condition names the `checkCalculatedCondition` switch matches on. -/
def calculatedConditionNames : List GoStr :=
  [("pv_producing".data), ("load_present".data), ("storage_present".data)]

/-- The query loop of `serveMetrics` as a fold, for stating the scrape
lifecycle. -/
def processQueries (conds : List Condition) (queries : List (Query × Option Json)) :
    GoStr × Cache :=
  queries.foldl (fun acc p => processQuery conds p.1 p.2 acc) ([], ([] : Cache))

/-! ### Scenario inputs used by the concrete claims -/

/-- Example document of C2: `{"a":{"b":2}}`. -/
def exampleDocAB : Json :=
  Json.obj [(("a".data), Json.obj [(("b".data), Json.num 2)])]

/-- The C1 scenario: one non-array query returning `{"wattsNow": 4250.5}`
and one gauge metric with a single untransformed value field. -/
def wattsNowField : Field := Field.mk ("wattsNow".data) [] [] []

def prodMetric : Metric :=
  Metric.mk ("envoy_production_watts_now".data) ("gauge".data)
    ("Current power production in watts".data) [] [wattsNowField] []

def prodDoc : Json := Json.obj [(("wattsNow".data), Json.num 4250.5)]

def prodQuery : Query :=
  Query.mk ("production".data) ("u".data) false [] [prodMetric]

/-- The C5 scenario: cache with `envoy_pv_power_watts = 1000` and
`envoy_load_power_watts = 800`, calculation
`max(0, envoy_pv_power_watts - envoy_load_power_watts)`. -/
def pvLoadCache : Cache :=
  [(("envoy_pv_power_watts".data), 1000), (("envoy_load_power_watts".data), 800)]

def pvSurplusCalc : GoStr :=
  ("max(0, envoy_pv_power_watts - envoy_load_power_watts)".data)

def pvSurplusMetric : CalculatedMetric :=
  CalculatedMetric.mk ("envoy_pv_surplus_watts".data) ("gauge".data)
    ("PV surplus power".data) [] pvSurplusCalc

/-- The C6 scenario: `envoy_zero_metric = 0` in the cache makes the
division substitute to `1000.00 / 0.00`. -/
def zeroCache : Cache :=
  [(("envoy_pv_power_watts".data), 1000), (("envoy_zero_metric".data), 0)]

def zeroCalc : GoStr := ("envoy_pv_power_watts / envoy_zero_metric".data)

def zeroRatioMetric : CalculatedMetric :=
  CalculatedMetric.mk ("envoy_bad_ratio".data) ("gauge".data) ("A ratio".data) [] zeroCalc

/- Concrete evaluation of the engine requires unfolding rational
arithmetic; Batteries marks these definitions irreducible only to keep
accidental defeq checks cheap, and the kernel reduces them regardless. -/
attribute [local semireducible] Rat.ofScientific Rat.mul Rat.inv Rat.add Rat.sub

/-! ### Helper lemmas -/

theorem jsonIndex_eq_orNull_specLookup (kvs : List (GoStr × Json)) (k : GoStr) :
    jsonIndex kvs k = orNull (specLookup kvs k) := by
  induction kvs with
  | nil => rfl
  | cons kv rest ih =>
    obtain ⟨k', v⟩ := kv
    by_cases h : k' = k <;> simp [jsonIndex, specLookup, h, ih, orNull]

theorem getJSONPathValueAux_null (segs : List GoStr) :
    getJSONPathValueAux Json.null segs = Json.null := by
  cases segs <;> rfl

theorem getJSONPathValueAux_eq_spec (segs : List GoStr) (d : Json) :
    getJSONPathValueAux d segs = orNull (specPathResolve d segs) := by
  induction segs generalizing d with
  | nil => cases d <;> rfl
  | cons seg rest ih =>
    cases d with
    | null => rfl
    | obj kvs =>
      rw [show getJSONPathValueAux (Json.obj kvs) (seg :: rest)
            = getJSONPathValueAux (jsonIndex kvs seg) rest from rfl]
      cases h : specLookup kvs seg with
      | none =>
        rw [jsonIndex_eq_orNull_specLookup, h]
        simp [orNull, getJSONPathValueAux_null, specPathResolve, h]
      | some v =>
        rw [jsonIndex_eq_orNull_specLookup, h]
        simp [orNull, specPathResolve, h, ih]
    | bool b => rfl
    | num q => rfl
    | str s => rfl
    | arr xs => rfl

theorem goSplit_ne_nil (c : Char) (s : GoStr) : goSplit c s ≠ [] := by
  induction s with
  | nil => simp [goSplit]
  | cons x xs ih =>
    simp only [goSplit]
    cases h : goSplit c xs with
    | nil => by_cases hx : x = c <;> simp [hx]
    | cons h' t => by_cases hx : x = c <;> simp [hx]

theorem goJoin_goSplit (c : Char) (s : GoStr) : goJoin [c] (goSplit c s) = s := by
  induction s with
  | nil => rfl
  | cons x xs ih =>
    simp only [goSplit]
    cases h : goSplit c xs with
    | nil => exact absurd h (goSplit_ne_nil c xs)
    | cons h' t =>
      rw [h] at ih
      by_cases hx : x = c
      · subst hx
        simp only [if_pos rfl]
        cases t with
        | nil => simpa [goJoin] using congrArg (x :: ·) ih
        | cons y t' => simpa [goJoin] using congrArg (x :: ·) ih
      · simp only [if_neg hx]
        cases t with
        | nil => simpa [goJoin] using congrArg (x :: ·) ih
        | cons y t' =>
          simp only [goJoin] at ih ⊢
          rw [show (x :: h') ++ [c] ++ goJoin [c] (y :: t')
                = x :: (h' ++ [c] ++ goJoin [c] (y :: t')) from rfl, ih]

theorem splitTwo?_eq {c : Char} {s a b : GoStr} (h : splitTwo? c s = some (a, b)) :
    s = a ++ c :: b := by
  unfold splitTwo? at h
  cases hs : goSplit c s with
  | nil => exact absurd hs (goSplit_ne_nil c s)
  | cons p t =>
    rw [hs] at h
    cases t with
    | nil => simp at h
    | cons q t2 =>
      cases t2 with
      | nil =>
        simp only [Option.some.injEq, Prod.mk.injEq] at h
        obtain ⟨rfl, rfl⟩ := h
        have := goJoin_goSplit c s
        rw [hs] at this
        simpa [goJoin] using this.symm
      | cons r t3 => simp at h

theorem splitTwo?_length {c : Char} {s a b : GoStr} (h : splitTwo? c s = some (a, b)) :
    a.length < s.length ∧ b.length < s.length := by
  have := congrArg List.length (splitTwo?_eq h)
  simp only [List.length_append, List.length_cons] at this
  omega

theorem goTrimSpace_length_le (s : GoStr) : (goTrimSpace s).length ≤ s.length := by
  unfold goTrimSpace
  have h1 : (s.dropWhile isGoSpace).length ≤ s.length :=
    (List.dropWhile_sublist _).length_le
  have h2 : ((s.dropWhile isGoSpace).reverse.dropWhile isGoSpace).length
      ≤ (s.dropWhile isGoSpace).reverse.length :=
    (List.dropWhile_sublist _).length_le
  simp only [List.length_reverse] at *
  omega

theorem lookupConditionCheck_eq_none {conds : List Condition} {name : GoStr}
    (h : ∀ c ∈ conds, c.Name ≠ name) : lookupConditionCheck conds name = none := by
  induction conds with
  | nil => rfl
  | cons c rest ih =>
    have hc : c.Name ≠ name := h c (List.mem_cons_self c rest)
    simp only [lookupConditionCheck, if_neg hc]
    exact ih fun c' hc' => h c' (List.mem_cons_of_mem c hc')

/-- Fuel adequacy: any two sufficient fuels make `evalExpr` agree.  The
source recursion only ever visits strict substrings, so `length + 1`
fuel is enough and `evalExpr` computes `evaluateExpression`. -/
theorem evalExpr_fuel_eq :
    ∀ (n : Nat) (s : GoStr), s.length ≤ n → ∀ f1 f2, s.length < f1 → s.length < f2 →
      evalExpr f1 s = evalExpr f2 s := by
  intro n
  induction n using Nat.strong_induction_on with
  | _ n ih =>
    intro s hs f1 f2 h1 h2
    obtain ⟨a, rfl⟩ : ∃ a, f1 = a + 1 := ⟨f1 - 1, by omega⟩
    obtain ⟨b, rfl⟩ : ∃ b, f2 = b + 1 := ⟨f2 - 1, by omega⟩
    have hts : (goTrimSpace s).length ≤ s.length := goTrimSpace_length_le s
    simp only [evalExpr]
    cases hplus : splitTwo? '+' (goTrimSpace s) with
    | some pq =>
      obtain ⟨p, q⟩ := pq
      have hl := splitTwo?_length hplus
      have lp : (goTrimSpace p).length ≤ p.length := goTrimSpace_length_le p
      have lq : (goTrimSpace q).length ≤ q.length := goTrimSpace_length_le q
      dsimp only
      rw [ih (goTrimSpace p).length (by omega) _ le_rfl a b (by omega) (by omega),
        ih (goTrimSpace q).length (by omega) _ le_rfl a b (by omega) (by omega)]
    | none =>
      cases hminus : (if goHasPrefix (['-']) (goTrimSpace s) then none
          else splitTwo? '-' (goTrimSpace s)) with
      | some pq =>
        obtain ⟨p, q⟩ := pq
        have hsplit : splitTwo? '-' (goTrimSpace s) = some (p, q) := by
          by_cases hpre : goHasPrefix (['-']) (goTrimSpace s)
          · rw [if_pos hpre] at hminus; cases hminus
          · rwa [if_neg hpre] at hminus
        have hl := splitTwo?_length hsplit
        have lp : (goTrimSpace p).length ≤ p.length := goTrimSpace_length_le p
        have lq : (goTrimSpace q).length ≤ q.length := goTrimSpace_length_le q
        simp only [hminus]
        rw [ih (goTrimSpace p).length (by omega) _ le_rfl a b (by omega) (by omega),
          ih (goTrimSpace q).length (by omega) _ le_rfl a b (by omega) (by omega)]
      | none =>
        simp only [hminus]
        cases hstar : splitTwo? '*' (goTrimSpace s) with
        | some pq =>
          obtain ⟨p, q⟩ := pq
          have hl := splitTwo?_length hstar
          have lp : (goTrimSpace p).length ≤ p.length := goTrimSpace_length_le p
          have lq : (goTrimSpace q).length ≤ q.length := goTrimSpace_length_le q
          dsimp only
          rw [ih (goTrimSpace p).length (by omega) _ le_rfl a b (by omega) (by omega),
            ih (goTrimSpace q).length (by omega) _ le_rfl a b (by omega) (by omega)]
        | none =>
          cases hdiv : splitTwo? '/' (goTrimSpace s) with
          | some pq =>
            obtain ⟨p, q⟩ := pq
            have hl := splitTwo?_length hdiv
            have lp : (goTrimSpace p).length ≤ p.length := goTrimSpace_length_le p
            have lq : (goTrimSpace q).length ≤ q.length := goTrimSpace_length_le q
            dsimp only
            rw [ih (goTrimSpace p).length (by omega) _ le_rfl a b (by omega) (by omega),
              ih (goTrimSpace q).length (by omega) _ le_rfl a b (by omega) (by omega)]
          | none => rfl

/-- With more than `length` fuel, `evalExpr` is `evaluateExpression`. -/
theorem evalExpr_adequate {fuel : Nat} {s : GoStr} (h : s.length < fuel) :
    evalExpr fuel s = evaluateExpression s :=
  evalExpr_fuel_eq s.length s le_rfl fuel (s.length + 1) h (Nat.lt_succ_self _)

theorem goSplit_mem_of_ne {c x : Char} :
    ∀ {s : GoStr}, x ∈ s → x ≠ c → ∃ p, p ∈ goSplit c s ∧ x ∈ p := by
  intro s
  induction s with
  | nil => intro h; exact absurd h (List.not_mem_nil x)
  | cons y ys ih =>
    intro hmem hne
    cases hr : goSplit c ys with
    | nil => exact absurd hr (goSplit_ne_nil c ys)
    | cons h t =>
      rcases List.mem_cons.1 hmem with rfl | hmem'
      · refine ⟨x :: h, ?_, List.mem_cons_self _ _⟩
        simp [goSplit, hr, hne]
      · obtain ⟨p, hp1, hp2⟩ := ih hmem' hne
        rw [hr] at hp1
        by_cases hyc : y = c
        · exact ⟨p, by simp [goSplit, hr, hyc, List.mem_cons.1 hp1], hp2⟩
        · rcases List.mem_cons.1 hp1 with rfl | hpt
          · exact ⟨y :: p, by simp [goSplit, hr, hyc], List.mem_cons_of_mem y hp2⟩
          · exact ⟨p, by simp [goSplit, hr, hyc, hpt], hp2⟩

/-- A string containing `/` never parses as a float. -/
theorem parseFloatDigits_eq_none_of_mem_slash {ds : GoStr} (h : '/' ∈ ds) :
    parseFloatDigits ds = none := by
  have hdig : ∀ {p : GoStr}, '/' ∈ p → p.all Char.isDigit = false := by
    intro p hp
    cases hb : p.all Char.isDigit
    · rfl
    · exact absurd (List.all_eq_true.1 hb '/' hp) (by decide)
  obtain ⟨p, hp1, hp2⟩ := @goSplit_mem_of_ne '.' '/' ds h (by decide)
  unfold parseFloatDigits
  cases hsp : goSplit '.' ds with
  | nil => exact absurd hsp (goSplit_ne_nil _ _)
  | cons p1 t =>
    rw [hsp] at hp1
    cases t with
    | nil =>
      have hpp : p = p1 := by simpa using hp1
      subst hpp
      simp [hdig hp2]
    | cons p2 t2 =>
      cases t2 with
      | nil =>
        rcases List.mem_cons.1 hp1 with rfl | hp1'
        · simp [hdig hp2]
        · have hpp : p = p2 := by simpa using hp1'
          subst hpp
          simp [hdig hp2]
      | cons p3 t3 => rfl

theorem parseFloat_eq_none_of_mem_slash {s : GoStr} (h : '/' ∈ s) :
    parseFloat s = none := by
  cases s with
  | nil => exact absurd h (List.not_mem_nil _)
  | cons c rest =>
    show (parseFloatDigits (if c = '-' ∨ c = '+' then rest else c :: rest)).map
      (fun q => if c = '-' then -q else q) = none
    by_cases hsign : c = '-' ∨ c = '+'
    · have hds : '/' ∈ rest := by
        rcases List.mem_cons.1 h with hc | hr
        · rcases hsign with rfl | rfl <;> simp at hc
        · exact hr
      rw [if_pos hsign, parseFloatDigits_eq_none_of_mem_slash hds]
      rfl
    · rw [if_neg hsign, parseFloatDigits_eq_none_of_mem_slash h]
      rfl

theorem cacheGet_cacheInsert (cache : Cache) (k : GoStr) (v : ℚ) :
    cacheGet (cacheInsert cache k v) k = v := by
  induction cache with
  | nil => simp [cacheInsert, cacheGet]
  | cons kv rest ih =>
    obtain ⟨k', v'⟩ := kv
    by_cases h : k' = k <;> simp [cacheInsert, cacheGet, h, ih]

theorem foldl_skip {α β : Type} (l : List β) (a : α) :
    l.foldl (fun x _ => x) a = a := by
  induction l generalizing a with
  | nil => rfl
  | cons b t ih => exact ih a

theorem serveQueriesLoop_eq_foldl (conds : List Condition)
    (queries : List (Query × Option Json)) :
    ∀ acc, serveQueriesLoop conds acc queries
      = queries.foldl (fun acc p => processQuery conds p.1 p.2 acc) acc := by
  induction queries with
  | nil => intro acc; rfl
  | cons q rest ih => intro acc; simp only [serveQueriesLoop, List.foldl_cons]; exact ih _

/-! ### Claims -/


/-- C2.  Path extractor resolution: for every document and dotted path,
`getJSONPathValue` computes exactly the spec's resolution
(`specPathResolve`): the terminal value when every segment resolves
through present map keys, and the absent marker when a segment is
missing or indexes through a non-map (arrays included), with no partial
result.  In particular on `{"a":{"b":2}}`: `a.b` is `2`, `a.c` and
`a.b.c` are absent. -/
theorem claimC2_path_extractor_resolution :
    (∀ (d : Json) (p : GoStr),
      getJSONPathValue d p = orNull (specPathResolve d (goSplit '.' p)))
    ∧ getJSONPathValue exampleDocAB ("a.b".data) = Json.num 2
    ∧ getJSONPathValue exampleDocAB ("a.c".data) = Json.null
    ∧ getJSONPathValue exampleDocAB ("a.b.c".data) = Json.null := by
  refine ⟨fun d p => ?_, rfl, rfl, rfl⟩
  cases d with
  | null =>
    cases hsp : goSplit '.' p with
    | nil => exact absurd hsp (goSplit_ne_nil '.' p)
    | cons seg rest => rfl
  | bool b => exact getJSONPathValueAux_eq_spec _ _
  | num q => exact getJSONPathValueAux_eq_spec _ _
  | str s => exact getJSONPathValueAux_eq_spec _ _
  | arr xs => exact getJSONPathValueAux_eq_spec _ _
  | obj kvs => exact getJSONPathValueAux_eq_spec _ _

/-- C3 counterexample: a terminal JSON `null` is NOT a present value
distinguishable from absent — the extractor returns the very same `nil`
it returns for a missing key, and `jsonPathExists` reports it absent. -/
theorem claimC3_counterexample :
    jsonPathExists (Json.obj [(("a".data), Json.null)]) ("a".data) = false
    ∧ getJSONPathValue (Json.obj [(("a".data), Json.null)]) ("a".data)
      = getJSONPathValue (Json.obj [(("a".data), Json.null)]) ("missing".data) :=
  ⟨rfl, rfl⟩

/-- C3 (amended).  For every document and path, reaching a non-map,
non-array value with segments still remaining yields absent; an
exhausted path returns the reached value itself; terminal `false`, `0`
and `""` are present values distinguishable from absent; a terminal JSON
`null`, however, comes back as the absent marker (Go `nil`) and is not
distinguishable from absence. -/
theorem claimC3_terminal_values :
    (∀ (v : Json) (seg : GoStr) (rest : List GoStr),
      (∀ kvs, v ≠ Json.obj kvs) → (∀ xs, v ≠ Json.arr xs) →
      getJSONPathValueAux v (seg :: rest) = Json.null)
    ∧ (∀ v : Json, getJSONPathValueAux v [] = v)
    ∧ jsonPathExists (Json.obj [(("a".data), Json.bool false)]) ("a".data) = true
    ∧ getJSONPathValue (Json.obj [(("a".data), Json.bool false)]) ("a".data) = Json.bool false
    ∧ jsonPathExists (Json.obj [(("a".data), Json.num 0)]) ("a".data) = true
    ∧ getJSONPathValue (Json.obj [(("a".data), Json.num 0)]) ("a".data) = Json.num 0
    ∧ jsonPathExists (Json.obj [(("a".data), Json.str [])]) ("a".data) = true
    ∧ getJSONPathValue (Json.obj [(("a".data), Json.str [])]) ("a".data) = Json.str []
    ∧ getJSONPathValue (Json.obj [(("a".data), Json.null)]) ("a".data) = Json.null := by
  refine ⟨fun v seg rest h1 h2 => ?_, fun v => ?_, rfl, rfl, rfl, rfl, rfl, rfl, rfl⟩
  · cases v with
    | null => rfl
    | bool b => rfl
    | num q => rfl
    | str s => rfl
    | arr xs => exact absurd rfl (h2 xs)
    | obj kvs => exact absurd rfl (h1 kvs)
  · cases v <;> rfl

/-- Witness for C3: the amended theorem applied at the concrete scalar
`7` with one remaining segment. -/
theorem claimC3_witness :
    getJSONPathValueAux (Json.num 7) [("x".data)] = Json.null :=
  claimC3_terminal_values.1 (Json.num 7) ("x".data) []
    (fun _ h => Json.noConfusion h) (fun _ h => Json.noConfusion h)

/-- C7.  Whenever a metric definition's condition evaluates to false
against the document, `processMetric` emits nothing — no HELP, no TYPE,
no sample — and leaves the cache unchanged. -/
theorem claimC7_condition_gates_renderer :
    ∀ (conds : List Condition) (metric : Metric) (data : Json) (cache : Cache),
      checkCondition conds metric.Condition data = false →
      processMetric conds metric data cache = ([], cache) := by
  intro conds metric data cache h
  simp [processMetric, h]

/-- Witness for C7: a `json_path_exists` condition that fails on an empty
document suppresses the whole metric. -/
theorem claimC7_witness :
    checkCondition [Condition.mk ("c1".data) ("json_path_exists(x)".data)]
        ("c1".data) (Json.obj []) = false
    ∧ processMetric [Condition.mk ("c1".data) ("json_path_exists(x)".data)]
        (Metric.mk ("m".data) ("gauge".data) ("h".data) ("c1".data) [] [])
        (Json.obj []) [(("k".data), 1)]
      = ([], [(("k".data), 1)]) :=
  ⟨rfl,
    claimC7_condition_gates_renderer _
      (Metric.mk ("m".data) ("gauge".data) ("h".data) ("c1".data) [] [])
      (Json.obj []) [(("k".data), 1)] rfl⟩

/-- C9.  Scrape lifecycle: the cache a scrape starts from is irrelevant
(it is reset to empty before any query runs), every query is rendered in
order starting from that empty cache, and the calculated-metric pass
runs exactly once, strictly after all query processing, reading the
final cache those queries produced. -/
theorem claimC9_scrape_lifecycle :
    ∀ (conds : List Condition) (oldCache : Cache)
      (queries : List (Query × Option Json)) (calcs : List CalculatedMetric)
      (tokenExpires scrapeTime : ℤ),
      serveMetricsCore conds oldCache queries calcs tokenExpires scrapeTime
        = ((processQueries conds queries).1
            ++ processCalculatedMetrics (processQueries conds queries).2 calcs
            ++ exporterTail tokenExpires scrapeTime,
          (processQueries conds queries).2)
      ∧ serveMetricsCore conds oldCache queries calcs tokenExpires scrapeTime
        = serveMetricsCore conds [] queries calcs tokenExpires scrapeTime := by
  intro conds oldCache queries calcs te ts
  refine ⟨?_, rfl⟩
  show (let acc := serveQueriesLoop conds ([], ([] : Cache)) queries
    (acc.1 ++ processCalculatedMetrics acc.2 calcs ++ exporterTail te ts, acc.2)) = _
  rw [serveQueriesLoop_eq_foldl]
  rfl

/-- C10.  A query configured `array=true` whose parsed document is not a
JSON array contributes nothing: no output lines, no cache writes for any
of its metric definitions, and the scrape continues with the remaining
queries as if the query were not there. -/
theorem claimC10_non_array_document_skipped :
    ∀ (conds : List Condition) (q : Query) (d : Json) (acc : GoStr × Cache),
      q.Array = true → (∀ xs, d ≠ Json.arr xs) →
      processQuery conds q (some d) acc = acc
      ∧ ∀ rest, serveQueriesLoop conds acc ((q, some d) :: rest)
          = serveQueriesLoop conds acc rest := by
  intro conds q d acc hq hd
  have hmain : processQuery conds q (some d) acc = acc := by
    cases d with
    | arr xs => exact absurd rfl (hd xs)
    | null =>
      by_cases hc : checkCondition conds q.Condition Json.null = false <;>
        simp [processQuery, hc, hq, foldl_skip]
    | bool b =>
      by_cases hc : checkCondition conds q.Condition (Json.bool b) = false <;>
        simp [processQuery, hc, hq, foldl_skip]
    | num n =>
      by_cases hc : checkCondition conds q.Condition (Json.num n) = false <;>
        simp [processQuery, hc, hq, foldl_skip]
    | str s =>
      by_cases hc : checkCondition conds q.Condition (Json.str s) = false <;>
        simp [processQuery, hc, hq, foldl_skip]
    | obj kvs =>
      by_cases hc : checkCondition conds q.Condition (Json.obj kvs) = false <;>
        simp [processQuery, hc, hq, foldl_skip]
  exact ⟨hmain, fun rest => by rw [serveQueriesLoop, hmain]⟩

/-- Witness for C10: an array-typed query receiving a JSON object is a
no-op in the scrape loop. -/
theorem claimC10_witness :
    processQuery []
        (Query.mk ("inverters".data) ("u".data) true []
          [Metric.mk ("m".data) ("gauge".data) ("h".data) [] [] []])
        (some (Json.obj [(("x".data), Json.num 1)])) (("out".data), [(("k".data), 2)])
      = (("out".data), [(("k".data), 2)]) :=
  (claimC10_non_array_document_skipped []
    (Query.mk ("inverters".data) ("u".data) true []
      [Metric.mk ("m".data) ("gauge".data) ("h".data) [] [] []])
    (Json.obj [(("x".data), Json.num 1)]) (("out".data), [(("k".data), 2)])
    rfl (fun _ h => Json.noConfusion h)).1

/-- C4 counterexample: a known transform applied to a value of unexpected
shape does NOT always return the input unchanged — `connected_to_int`
on the float `5` returns the int `0`, not `5`. -/
theorem claimC4_counterexample :
    transformValue (Dyn.float 5) ("connected_to_int".data) = Dyn.int 0
    ∧ transformValue (Dyn.float 5) ("connected_to_int".data) ≠ Dyn.float 5 := by
  refine ⟨rfl, fun h => ?_⟩
  have h' : Dyn.int 0 = Dyn.float 5 := h
  exact Dyn.noConfusion h'

/-- C4 (amended).  Fail-open for unknown names, never raising: an unknown
transform name is an identity; `bool_to_int` and `mw_to_watts` on values
of unexpected shape are identities; the string-comparison transforms
(`connected_to_int`, `ok_to_int`, `enabled_to_int`,
`battery_state_to_int`) on non-string values return the int `0` rather
than the input; an unknown condition name, an unrecognised
condition-check string, and an unknown or empty calculated-condition
string all evaluate to true. -/
theorem claimC4_fail_open :
    (∀ (v : Dyn) (t : GoStr), t ∉ knownTransformNames → transformValue v t = v)
    ∧ (∀ v : Dyn, (∀ b, v ≠ Dyn.bool b) → transformValue v ("bool_to_int".data) = v)
    ∧ (∀ v : Dyn, (∀ q, v ≠ Dyn.float q) → (∀ n, v ≠ Dyn.int n) →
        transformValue v ("mw_to_watts".data) = v)
    ∧ (∀ v : Dyn, (∀ s, v ≠ Dyn.str s) →
        transformValue v ("connected_to_int".data) = Dyn.int 0
        ∧ transformValue v ("ok_to_int".data) = Dyn.int 0
        ∧ transformValue v ("enabled_to_int".data) = Dyn.int 0
        ∧ transformValue v ("battery_state_to_int".data) = Dyn.int 0)
    ∧ (∀ (conds : List Condition) (name : GoStr) (d : Json),
        (∀ c ∈ conds, c.Name ≠ name) → checkCondition conds name d = true)
    ∧ (∀ (check : GoStr) (d : Json), check ≠ ("endpoint_accessible".data) →
        goHasPrefix ("json_path_exists".data) check = false →
        goHasPrefix ("json_path_value".data) check = false →
        goContainsSub check ("array_has_type".data) = false →
        evaluateConditionCheck check d = true)
    ∧ (∀ (cache : Cache) (c : GoStr), c ∉ calculatedConditionNames →
        checkCalculatedCondition cache c = true) := by
  refine ⟨?_, ?_, ?_, ?_, ?_, ?_, ?_⟩
  · intro v t ht
    simp only [knownTransformNames, List.mem_cons, List.not_mem_nil, or_false] at ht
    push_neg at ht
    obtain ⟨h1, h2, h3, h4, h5, h6⟩ := ht
    simp [transformValue, h1, h2, h3, h4, h5, h6]
  · intro v hv
    cases v with
    | bool b => exact absurd rfl (hv b)
    | null => rfl
    | int n => rfl
    | float q => rfl
    | str s => rfl
    | arr xs => rfl
    | obj kvs => rfl
  · intro v hf hi
    cases v with
    | float q => exact absurd rfl (hf q)
    | int n => exact absurd rfl (hi n)
    | null => rfl
    | bool b => rfl
    | str s => rfl
    | arr xs => rfl
    | obj kvs => rfl
  · intro v hs
    cases v with
    | str s => exact absurd rfl (hs s)
    | null => exact ⟨rfl, rfl, rfl, rfl⟩
    | bool b => exact ⟨rfl, rfl, rfl, rfl⟩
    | int n => exact ⟨rfl, rfl, rfl, rfl⟩
    | float q => exact ⟨rfl, rfl, rfl, rfl⟩
    | arr xs => exact ⟨rfl, rfl, rfl, rfl⟩
    | obj kvs => exact ⟨rfl, rfl, rfl, rfl⟩
  · intro conds name d h
    by_cases hn : name = []
    · simp [checkCondition, hn]
    · simp [checkCondition, hn, lookupConditionCheck_eq_none h]
  · intro check d h1 h2 h3 h4
    simp [evaluateConditionCheck, h1, h2, h3, h4]
  · intro cache c hc
    simp only [calculatedConditionNames, List.mem_cons, List.not_mem_nil, or_false] at hc
    push_neg at hc
    obtain ⟨h1, h2, h3⟩ := hc
    by_cases hempty : c = []
    · simp [checkCalculatedCondition, hempty]
    · simp [checkCalculatedCondition, hempty, h1, h2, h3]

/-- Witness for C4: the fail-open theorem at concrete inputs. -/
theorem claimC4_witness :
    transformValue (Dyn.float 7) ("no_such_transform".data) = Dyn.float 7
    ∧ transformValue (Dyn.str ("x".data)) ("bool_to_int".data) = Dyn.str ("x".data)
    ∧ transformValue (Dyn.str ("x".data)) ("mw_to_watts".data) = Dyn.str ("x".data)
    ∧ transformValue (Dyn.bool true) ("ok_to_int".data) = Dyn.int 0
    ∧ checkCondition [Condition.mk ("c1".data) ("endpoint_accessible".data)]
        ("other".data) Json.null = true
    ∧ evaluateConditionCheck ("frobnicate".data) Json.null = true
    ∧ checkCalculatedCondition [] ("weird".data) = true :=
  ⟨claimC4_fail_open.1 (Dyn.float 7) ("no_such_transform".data) (by decide),
    claimC4_fail_open.2.1 (Dyn.str ("x".data)) (fun _ h => Dyn.noConfusion h),
    claimC4_fail_open.2.2.1 (Dyn.str ("x".data))
      (fun _ h => Dyn.noConfusion h) (fun _ h => Dyn.noConfusion h),
    (claimC4_fail_open.2.2.2.1 (Dyn.bool true) (fun _ h => Dyn.noConfusion h)).2.1,
    claimC4_fail_open.2.2.2.2.1 _ ("other".data) Json.null (by decide),
    claimC4_fail_open.2.2.2.2.2.1 ("frobnicate".data) Json.null (by decide)
      (by decide) (by decide) (by decide),
    claimC4_fail_open.2.2.2.2.2.2 [] ("weird".data) (by decide)⟩

/-- C8.  Static-metric invariant: when the condition passes, a metric
with no fields emits exactly one sample line `name value` after the
HELP/TYPE preamble, `value` being the configured static value or `"1"`;
a metric with fields emits at most one sample line after the preamble. -/
theorem claimC8_static_metric_invariant :
    ∀ (conds : List Condition) (metric : Metric) (data : Json) (cache : Cache),
      checkCondition conds metric.Condition data = true →
      (metric.Fields = [] →
        processMetric conds metric data cache
          = (helpTypeLines metric ++ metric.Name ++
              ' ' :: (if metric.Value = [] then ("1".data) else metric.Value) ++ ['\n'],
            cache))
      ∧ (metric.Fields ≠ [] →
        ∃ t, (processMetric conds metric data cache).1 = helpTypeLines metric ++ t
          ∧ (t = [] ∨ ∃ lbls v, t = metric.Name ++ lbls ++ ' ' :: v ++ ['\n'])) := by
  intro conds metric data cache h
  have hcond : ¬(checkCondition conds metric.Condition data = false) := by simp [h]
  constructor
  · intro hf
    simp [processMetric, hcond, hf]
  · intro hf
    cases hmv : metricFinalValue metric data with
    | null => exact ⟨[], by simp [processMetric, hcond, hf, hmv], Or.inl rfl⟩
    | bool b =>
      exact ⟨metric.Name ++ formatLabels (fieldsPass metric data).1 ++
          ' ' :: fmtV (Dyn.bool b) ++ ['\n'],
        by simp [processMetric, hcond, hf, hmv],
        Or.inr ⟨formatLabels (fieldsPass metric data).1, fmtV (Dyn.bool b), rfl⟩⟩
    | int n =>
      exact ⟨metric.Name ++ formatLabels (fieldsPass metric data).1 ++
          ' ' :: fmtV (Dyn.int n) ++ ['\n'],
        by simp [processMetric, hcond, hf, hmv],
        Or.inr ⟨formatLabels (fieldsPass metric data).1, fmtV (Dyn.int n), rfl⟩⟩
    | float q =>
      exact ⟨metric.Name ++ formatLabels (fieldsPass metric data).1 ++
          ' ' :: fmtV (Dyn.float q) ++ ['\n'],
        by simp [processMetric, hcond, hf, hmv],
        Or.inr ⟨formatLabels (fieldsPass metric data).1, fmtV (Dyn.float q), rfl⟩⟩
    | str s =>
      exact ⟨metric.Name ++ formatLabels (fieldsPass metric data).1 ++
          ' ' :: fmtV (Dyn.str s) ++ ['\n'],
        by simp [processMetric, hcond, hf, hmv],
        Or.inr ⟨formatLabels (fieldsPass metric data).1, fmtV (Dyn.str s), rfl⟩⟩
    | arr xs =>
      exact ⟨metric.Name ++ formatLabels (fieldsPass metric data).1 ++
          ' ' :: fmtV (Dyn.arr xs) ++ ['\n'],
        by simp [processMetric, hcond, hf, hmv],
        Or.inr ⟨formatLabels (fieldsPass metric data).1, fmtV (Dyn.arr xs), rfl⟩⟩
    | obj kvs =>
      exact ⟨metric.Name ++ formatLabels (fieldsPass metric data).1 ++
          ' ' :: fmtV (Dyn.obj kvs) ++ ['\n'],
        by simp [processMetric, hcond, hf, hmv],
        Or.inr ⟨formatLabels (fieldsPass metric data).1, fmtV (Dyn.obj kvs), rfl⟩⟩

/-- Witness for C8: a fieldless metric with no static value emits the
sample `up 1`; a one-field metric emits at most one sample line. -/
theorem claimC8_witness :
    processMetric [] (Metric.mk ("up".data) ("gauge".data) ("h".data) [] [] [])
        (Json.obj []) []
      = (helpTypeLines (Metric.mk ("up".data) ("gauge".data) ("h".data) [] [] [])
          ++ ("up".data) ++ ' ' :: (if ([] : GoStr) = [] then ("1".data) else ([] : GoStr))
          ++ ['\n'], ([] : Cache))
    ∧ ∃ t, (processMetric []
          (Metric.mk ("m".data) ("gauge".data) ("h".data) []
            [Field.mk ("x".data) [] [] []] [])
          (Json.obj []) []).1
        = helpTypeLines (Metric.mk ("m".data) ("gauge".data) ("h".data) []
            [Field.mk ("x".data) [] [] []] []) ++ t
        ∧ (t = [] ∨ ∃ lbls v, t = ("m".data) ++ lbls ++ ' ' :: v ++ ['\n']) :=
  ⟨(claimC8_static_metric_invariant []
      (Metric.mk ("up".data) ("gauge".data) ("h".data) [] [] [])
      (Json.obj []) [] (by decide)).1 rfl,
    (claimC8_static_metric_invariant []
      (Metric.mk ("m".data) ("gauge".data) ("h".data) []
        [Field.mk ("x".data) [] [] []] [])
      (Json.obj []) [] (by decide)).2 (by decide)⟩

set_option maxRecDepth 100000 in
/-- C1.  End-to-end render: on the document `{"wattsNow": 4250.5}`,
`processMetric` emits exactly the HELP line, the TYPE line and the
sample `envoy_production_watts_now 4250.5`, the same holds through the
non-array query path, and the metric cache afterwards maps
`envoy_production_watts_now` to `4250.5`. -/
theorem claimC1_end_to_end_render :
    processMetric [] prodMetric prodDoc []
      = (("# HELP envoy_production_watts_now Current power production in watts\n".data)
          ++ ("# TYPE envoy_production_watts_now gauge\n".data)
          ++ ("envoy_production_watts_now 4250.5\n".data),
        [(("envoy_production_watts_now".data), (4250.5 : ℚ))])
    ∧ processQuery [] prodQuery (some prodDoc) ([], [])
      = (("# HELP envoy_production_watts_now Current power production in watts\n".data)
          ++ ("# TYPE envoy_production_watts_now gauge\n".data)
          ++ ("envoy_production_watts_now 4250.5\n".data),
        [(("envoy_production_watts_now".data), (4250.5 : ℚ))])
    ∧ cacheGet (processMetric [] prodMetric prodDoc []).2
        ("envoy_production_watts_now".data) = (4250.5 : ℚ) :=
  ⟨by decide, by decide, by decide⟩

/-- C5.  Calculated-metric evaluation: metric names are substituted at
two decimal places, the `max` call is expanded textually, the arithmetic
evaluates to exactly `200`, and the metric is emitted with the value
formatted to two decimals. -/
theorem claimC5_calculated_metric :
    substituteCache pvLoadCache pvSurplusCalc = ("max(0, 1000.00 - 800.00)".data)
    ∧ replaceFunctions (("max(0, 1000.00 - 800.00)".data)) = ("200.00".data)
    ∧ evaluateCalculation pvLoadCache pvSurplusCalc = some 200
    ∧ processCalculatedMetric1 pvLoadCache pvSurplusMetric
      = (("# HELP envoy_pv_surplus_watts PV surplus power\n".data)
          ++ ("# TYPE envoy_pv_surplus_watts gauge\n".data)
          ++ ("envoy_pv_surplus_watts 200.00\n".data)) :=
  ⟨by decide, by decide, by decide, by decide⟩

/-- C6.  Division by zero: for every calculation whose substituted,
function-expanded form splits once on `/` (and on no earlier operator)
with a denominator evaluating to exactly zero,
`evaluateCalculation` returns NaN (`none`), and
`processCalculatedMetrics` emits nothing at all for that metric — no
HELP, no TYPE, no sample — leaving all other calculated metrics
unaffected. -/
theorem claimC6_division_by_zero :
    ∀ (cache : Cache) (calcStr a b : GoStr),
      splitTwo? '/' (goTrimSpace (replaceFunctions (substituteCache cache calcStr)))
        = some (a, b) →
      splitTwo? '+' (goTrimSpace (replaceFunctions (substituteCache cache calcStr)))
        = none →
      (goHasPrefix (['-']) (goTrimSpace (replaceFunctions (substituteCache cache calcStr)))
          = true
        ∨ splitTwo? '-' (goTrimSpace (replaceFunctions (substituteCache cache calcStr)))
          = none) →
      splitTwo? '*' (goTrimSpace (replaceFunctions (substituteCache cache calcStr)))
        = none →
      evaluateExpression (goTrimSpace b) = some 0 →
      evaluateCalculation cache calcStr = none
      ∧ ∀ (cm : CalculatedMetric) (pre post : List CalculatedMetric),
          cm.Calculation = calcStr →
          processCalculatedMetrics cache (pre ++ cm :: post)
            = processCalculatedMetrics cache pre ++ processCalculatedMetrics cache post := by
  intro cache calcStr a b hdiv hplus hminus hstar hb
  set R := replaceFunctions (substituteCache cache calcStr) with hR
  have hp : parseFloat (goTrimSpace R) = none := by
    apply parseFloat_eq_none_of_mem_slash
    rw [splitTwo?_eq hdiv]
    exact List.mem_append_right _ (List.mem_cons_self _ _)
  have hmain : evaluateCalculation cache calcStr = none := by
    have h1 : evaluateCalculation cache calcStr = evalExpr (R.length + 1) R := rfl
    rw [h1]
    have hfuel : (goTrimSpace b).length < R.length := by
      have hlb := (splitTwo?_length hdiv).2
      have h2 : (goTrimSpace R).length ≤ R.length := goTrimSpace_length_le R
      have h3 : (goTrimSpace b).length ≤ b.length := goTrimSpace_length_le b
      omega
    have hm : (if goHasPrefix (['-']) (goTrimSpace R) = true then none
        else splitTwo? '-' (goTrimSpace R)) = none := by
      rcases hminus with h | h
      · simp [h]
      · simp [h]
    simp only [evalExpr, hplus, hm, hstar, hdiv]
    rw [evalExpr_adequate hfuel, hb]
    simp [hp]
  refine ⟨hmain, fun cm pre post hcm => ?_⟩
  induction pre with
  | nil =>
    show processCalculatedMetric1 cache cm ++ processCalculatedMetrics cache post = _
    have hone : processCalculatedMetric1 cache cm = [] := by
      unfold processCalculatedMetric1
      by_cases hcc : checkCalculatedCondition cache cm.Condition = false
      · simp [hcc]
      · simp [hcc, hcm, hmain]
    simp [processCalculatedMetrics, hone]
  | cons c pre' ih =>
    show processCalculatedMetric1 cache c
        ++ processCalculatedMetrics cache (pre' ++ cm :: post) = _
    rw [ih]
    simp [processCalculatedMetrics, List.append_assoc]

/-- Witness for C6: the concrete division-by-zero calculation evaluates
to NaN and drops out of the emission, leaving its neighbour intact. -/
theorem claimC6_witness :
    evaluateCalculation zeroCache zeroCalc = none
    ∧ processCalculatedMetrics zeroCache [pvSurplusMetric, zeroRatioMetric]
      = processCalculatedMetrics zeroCache [pvSurplusMetric]
        ++ processCalculatedMetrics zeroCache [] := by
  have h := claimC6_division_by_zero zeroCache zeroCalc ("1000.00 ".data) (" 0.00".data)
    (by decide) (by decide) (Or.inr (by decide)) (by decide) (by decide)
  exact ⟨h.1, h.2 zeroRatioMetric [pvSurplusMetric] [] rfl⟩

end Envoy
